import Mathlib

/-!
Verification of the caching git-query facade (`gitoper.py`, class
`GitOperations`) through a shallow embedding.

The external `git` binary is modelled as an oracle
`List String → Except String String`: `.ok out` is the standard output of a
successful process, `.error e` stands for a `CalledProcessError` whose
`str(e)` is `e`.  Failure to even launch the tool is out of scope (the
source treats it as a distinct fatal condition).

Python strings are modelled by Lean `String`; the Python string
operations used by the source (`split` with an explicit one-character
separator, `splitlines`, `strip`, `int`, `"%04d"` formatting, joining on
spaces) are re-implemented below with structurally recursive functions so
that everything reduces in the kernel.
-/

set_option autoImplicit false

namespace Gitoper

/-! ## Python string primitives -/

/-- Python `s.split(sep)` for a one-character separator, on the character
list: keeps empty fields, never returns an empty list. -/
def splitOnChar (sep : Char) : List Char → List (List Char)
  | [] => [[]]
  | c :: cs =>
    let r := splitOnChar sep cs
    if c = sep then [] :: r
    else
      match r with
      | [] => [[c]]
      | h :: t => (c :: h) :: t

/-- Python `s.split(sep)` for a one-character separator. -/
def pySplit (sep : Char) (s : String) : List String :=
  (splitOnChar sep s.data).map (fun l => ⟨l⟩)

/-- Last element of a `split` result (Python `[-1]`); `split` never
returns an empty list, so the default is never used. -/
def pyLast (l : List String) : String :=
  l.getLast?.getD ""

/-- Python `str.splitlines()` restricted to `\n` separators: like
splitting on `\n` but without a trailing empty field when the string ends
in a newline, and `[]` on the empty string. -/
def pySplitlines (s : String) : List String :=
  let parts := splitOnChar '\n' s.data
  (if parts.getLast? = some [] then parts.dropLast else parts).map (fun l => ⟨l⟩)

/-- The characters Python `str.strip()` removes. -/
def isPySpace (c : Char) : Bool :=
  c = ' ' || c = '\t' || c = '\n' || c = '\r' || c = '\x0b' || c = '\x0c'

/-- Python `str.strip()`. -/
def pyStrip (s : String) : String :=
  ⟨((s.data.dropWhile isPySpace).reverse.dropWhile isPySpace).reverse⟩

/-- Python `" ".join(l)`. -/
def joinSpace : List String → String
  | [] => ""
  | [x] => x
  | x :: xs => x ++ " " ++ joinSpace xs

/-- Concatenation of lines each followed by a newline; the shape of the
standard output of a git command printing one item per line. -/
def unlines : List String → String
  | [] => ""
  | h :: t => h ++ "\n" ++ unlines t

/-- Tests for an ASCII decimal digit. -/
def isDigitChar (c : Char) : Bool :=
  48 ≤ c.toNat && c.toNat ≤ 57

/-- Numeric value of a decimal digit string (most significant first). -/
def digitsVal (l : List Char) : Nat :=
  l.foldl (fun n c => 10 * n + (c.toNat - 48)) 0

/-- Python `int(s)` for the inputs the source feeds it: surrounding
whitespace is stripped, then the decimal digits are read. -/
def pyInt (s : String) : Nat :=
  digitsVal (pyStrip s).data

/-- The decimal digit character of `k < 10`. -/
def digitChar (k : Nat) : Char :=
  if k = 0 then '0' else if k = 1 then '1' else if k = 2 then '2'
  else if k = 3 then '3' else if k = 4 then '4' else if k = 5 then '5'
  else if k = 6 then '6' else if k = 7 then '7' else if k = 8 then '8' else '9'

/-- Decimal digits of `n`, most significant first, computed with `n` as
fuel so the recursion is structural. -/
def natDigitsAux : Nat → Nat → List Char
  | 0, _ => []
  | fuel + 1, n =>
    if n = 0 then []
    else natDigitsAux fuel (n / 10) ++ [digitChar (n % 10)]

/-- Decimal representation of `n`. -/
def natDigits (n : Nat) : List Char :=
  if n = 0 then ['0'] else natDigitsAux n n

/-- Python `"%0<w>d" % n`: decimal representation left-padded with zeros
to width `w` (longer numbers are printed in full). -/
def padNat (w n : Nat) : String :=
  ⟨List.replicate (w - (natDigits n).length) '0' ++ natDigits n⟩

/-- Python string `<`: lexicographic comparison by code points. -/
def lexLt : List Char → List Char → Bool
  | [], [] => false
  | [], _ :: _ => true
  | _ :: _, [] => false
  | a :: as, b :: bs =>
    if a.toNat < b.toNat then true
    else if b.toNat < a.toNat then false
    else lexLt as bs

/-- The smaller of two strings under Python string order (first one on
ties). -/
def pyMin2 (a b : String) : String :=
  if lexLt b.data a.data then b else a

/-- Python `sorted(l)[0]`: the least string of the list, `none` when the
list is empty (where Python raises `IndexError`). -/
def pyMinStr : List String → Option String
  | [] => Option.none
  | x :: xs => some (xs.foldl pyMin2 x)

/-- Python `range(a, b)` (over naturals). -/
def pyRange (a b : Nat) : List Nat :=
  List.range' a (b - a)

/-! ## Data model

State of one `GitOperations` instance: the command cache, the per-commit
known-directory sets, the per-(commit, path) size cache, and the two
error channels (`sys.stderr` and the `_errfile` sink) as lists of the
messages the Python code itself writes to them. -/

/-- A value stored in `self._cache`: the text output of a command, a
boolean (exit-code mode), or Python `None` (content-mode failure). -/
inductive CmdOut where
  | text (s : String)
  | bool (b : Bool)
  | none
deriving DecidableEq, Repr

/-- A Python `dict` with string keys: an association list where
assignment prepends and lookup takes the first match. -/
def lookupAssoc {α : Type} : List (String × α) → String → Option α
  | [], _ => Option.none
  | (k, v) :: r, key => if k = key then some v else lookupAssoc r key

/-- Dictionary assignment `d[k] = v`. -/
def insertAssoc {α : Type} (l : List (String × α)) (k : String) (v : α) :
    List (String × α) :=
  (k, v) :: l

/-- The mutable state of a `GitOperations` instance. -/
structure GState where
  gitrepo : String
  caching : Bool
  cache : List (String × CmdOut)
  trees : List (String × List String)
  sizes : List (String × List (String × Nat))
  stderrLog : List String
  errLog : List String
deriving DecidableEq, Repr

/-- The external `git` binary: argv to either standard output or the
textual form of a `CalledProcessError`. -/
def Oracle : Type := List String → Except String String

/-- State right after `__init__` has set up the empty caches (before the
year-range computation, which is modelled separately). -/
def initState (repo : String) (caching : Bool) : GState :=
  { gitrepo := repo ++ "/.git"
    caching := caching
    cache := []
    trees := []
    sizes := []
    stderrLog := []
    errLog := [] }

/-! ## cached_command -/

/-- The full argv `['git', '--git-dir', self._gitrepo] + list`. -/
def fullArgv (s : GState) (args : List String) : List String :=
  ["git", "--git-dir", s.gitrepo] ++ args

/-- The cache key `" ".join(list)`. -/
def keyOf (s : GState) (args : List String) : String :=
  joinSpace (fullArgv s args)

/-- Embedding of `cached_command(list, return_exit_code)`.  Returns the value Python
returns, the state afterwards, and how many times the external tool was
invoked by this call (0 or 1). -/
def cached_command (oracle : Oracle) (s : GState) (args : List String)
    (return_exit_code : Bool) : CmdOut × GState × Nat :=
  let command := keyOf s args
  match lookupAssoc s.cache command with
  | some v => (v, s, 0)
  | Option.none =>
    let (out, s1) :=
      match oracle (fullArgv s args) with
      | .ok o => (if return_exit_code then CmdOut.bool true else CmdOut.text o, s)
      | .error e =>
        if return_exit_code then (CmdOut.bool false, s)
        else
          let message := "Error calling " ++ command ++ ": " ++ e
          (CmdOut.none,
           { s with stderrLog := s.stderrLog ++ [message]
                    errLog := s.errLog ++ [message] })
    let s2 := if s.caching then { s1 with cache := insertAssoc s1.cache command out } else s1
    (out, s2, 1)

/-! ## fill_trees and is_dir -/

/-- The path field of one `ls-tree` line, as the source extracts it:
`cont.split(" ")[-1].split("\t")[-1]`. -/
def linePath (cont : String) : String :=
  pyLast (pySplit '\t' (pyLast (pySplit ' ' cont)))

/-- The type field `cont.split(" ")[1]` of one `ls-tree` line; `none`
when the line has fewer than two space-separated fields, where the source
raises `IndexError`. -/
def lineType (cont : String) : Option String :=
  (pySplit ' ' cont).get? 1

/-- The loop of `fill_trees`: collects, in order, the paths of the
`tree`-typed lines that are not already in the set `base`
(`self._trees[commit]`, unchanged during the loop).  `none` models the
`IndexError` a line with fewer than two fields raises. -/
def collectTrees (base : List String) : List String → Option (List String)
  | [] => some []
  | cont :: rest =>
    match lineType cont with
    | Option.none => Option.none
    | some typ =>
      match collectTrees base rest with
      | Option.none => Option.none
      | some trees =>
        some (if typ = "tree" ∧ linePath cont ∉ base then linePath cont :: trees else trees)

/-- Embedding of `fill_trees(commit, contents)`.  `.ok` carries the state after the
final `update`; `.error` carries the state at an `IndexError` (the seed
`self._trees[commit] = set([''])` has already happened, the `update` has
not). -/
def fill_trees (s : GState) (commit : String) (contents : List String) :
    Except GState GState :=
  let base :=
    match lookupAssoc s.trees commit with
    | some ps => ps
    | Option.none => [""]
  let s0 :=
    match lookupAssoc s.trees commit with
    | some _ => s
    | Option.none => { s with trees := insertAssoc s.trees commit [""] }
  match collectTrees base contents with
  | Option.none => .error s0
  | some trees => .ok { s0 with trees := insertAssoc s0.trees commit (base ++ trees) }

/-- A sequence of `fill_trees` calls for one commit, one listing each. -/
def fillManyTrees (s : GState) (commit : String) (ls : List (List String)) :
    Except GState GState :=
  ls.foldlM (fun st l => fill_trees st commit l) s

/-- The known-directory set of `commit` (empty list when no `fill` has
happened yet for it); membership in this list is set membership. -/
def treesOf (s : GState) (commit : String) : List String :=
  (lookupAssoc s.trees commit).getD []

/-- The directory-typed entries of one listing: the paths of its lines
whose type field is `tree`. -/
def treeEntries (contents : List String) : List String :=
  (contents.filter (fun c => lineType c = some "tree")).map linePath

/-- Embedding of `is_dir(commit, path)`.  When the commit has a known-directory set,
pure membership; otherwise one content-mode `cat-file -t` query, its
output stripped and compared against `"tree"`.  `none` models the
uncaught `AttributeError` when that query yields a non-text cache value
(`cached_command` converts a `CalledProcessError` into `None` before the
`except CalledProcessError` clause could see it, so that clause is
unreachable). -/
def is_dir (oracle : Oracle) (s : GState) (commit path : String) :
    Option (Bool × GState × Nat) :=
  match lookupAssoc s.trees commit with
  | some ps => some (decide (path ∈ ps), s, 0)
  | Option.none =>
    let r := cached_command oracle s
      ["cat-file", "-t", "--allow-unknown-type", commit ++ ":" ++ path] false
    match r.1 with
    | CmdOut.text t => some (decide (pyStrip t = "tree"), r.2.1, r.2.2)
    | _ => Option.none

/-! ## Year range -/

/-- Argv of the `_first_year` query. -/
def firstYearArgs : List String :=
  ["log", "--max-parents=0", "--date=format:%Y", "--pretty=%ad", "master"]

/-- Argv of the `_last_year` query. -/
def lastYearArgs : List String :=
  ["log", "-n", "1", "--date=format:%Y", "--pretty=%ad", "master"]

/-- Embedding of `_first_year()`: `int(sorted(output.splitlines())[0])`.  The value is `none` when
the query fails (`None.splitlines()` raises) or yields no lines
(`IndexError` on `[0]`). -/
def first_year (oracle : Oracle) (s : GState) : Option (Nat × GState × Nat) :=
  let r := cached_command oracle s firstYearArgs false
  match r.1 with
  | CmdOut.text t =>
    match pyMinStr (pySplitlines t) with
    | some m => some (pyInt m, r.2.1, r.2.2)
    | Option.none => Option.none
  | _ => Option.none

/-- Embedding of `_last_year()`: `int(output)`.  The value is `none` when the query fails
(`int(None)` raises). -/
def last_year (oracle : Oracle) (s : GState) : Option (Nat × GState × Nat) :=
  let r := cached_command oracle s lastYearArgs false
  match r.1 with
  | CmdOut.text t => some (pyInt t, r.2.1, r.2.2)
  | _ => Option.none

/-- The `__init__` line `self.years = range(self._first_year(),
self._last_year() + 1)`; `none` when either query fails, which aborts
construction. -/
def initYears (oracle : Oracle) (s : GState) : Option (List Nat × GState) :=
  match first_year oracle s with
  | Option.none => Option.none
  | some (fy, s1, _) =>
    match last_year oracle s1 with
    | Option.none => Option.none
    | some (ly, s2, _) => some (pyRange fy (ly + 1), s2)

/-! ## Day-bucketed commit listing -/

/-- Gregorian leap year, as `datetime` implements it. -/
def isLeap (y : Nat) : Bool :=
  (y % 4 = 0 && y % 100 ≠ 0) || y % 400 = 0

/-- Length of month `m` of year `y`. -/
def daysInMonth (y m : Nat) : Nat :=
  if m = 2 then (if isLeap y then 29 else 28)
  else if m = 4 ∨ m = 6 ∨ m = 9 ∨ m = 11 then 30
  else 31

/-- Computes `datetime.date(y, m, d) - timedelta(days=1)` on a valid
date.  At the minimum representable date `(1, 1, 1)` — the only valid
date whose predecessor falls outside the supported range — Python raises
`OverflowError`, modelled as `none`. -/
def prevDate : Nat × Nat × Nat → Option (Nat × Nat × Nat)
  | (y, m, d) =>
    if y = 1 ∧ m = 1 ∧ d = 1 then Option.none
    else if 1 < d then some (y, m, d - 1)
    else if 1 < m then some (y, m - 1, daysInMonth y (m - 1))
    else some (y - 1, 12, 31)

/-- Validity check: `datetime.date(y, m, d)` raises `ValueError` outside these bounds. -/
def validDate (y m d : Nat) : Bool :=
  1 ≤ y && y ≤ 9999 && 1 ≤ m && m ≤ 12 && 1 ≤ d && d ≤ daysInMonth y m

/-- Formatting of `'%04d-%02d-%02d' % (y, m, d)`. -/
def fmtDate (y m d : Nat) : String :=
  padNat 4 y ++ "-" ++ padNat 2 m ++ "-" ++ padNat 2 d

/-- Argv of the `commits(y, m, d)` query: `--after` the start date `p`
(one day before the end date), `--before` the end date `(y, m, d)`. -/
def commitsArgs (p : Nat × Nat × Nat) (y m d : Nat) : List String :=
  ["log", "--after", fmtDate p.1 p.2.1 p.2.2, "--before", fmtDate y m d, "--pretty=%H"]

/-- Embedding of `commits(y, m, d)`: one content-mode log query, output split into
lines and each line stripped.  `none` models the `ValueError` of an
invalid date, the `OverflowError` of the day subtraction at the minimum
date, or the `AttributeError` of `None.splitlines()` on query failure. -/
def commits (oracle : Oracle) (s : GState) (y m d : Nat) :
    Option (List String × GState × Nat) :=
  if validDate y m d then
    match prevDate (y, m, d) with
    | Option.none => Option.none
    | some p =>
      let r := cached_command oracle s (commitsArgs p y m d) false
      match r.1 with
      | CmdOut.text t => some ((pySplitlines t).map pyStrip, r.2.1, r.2.2)
      | _ => Option.none
  else Option.none

/-! ## Directory contents, file contents, file size -/

/-- Embedding of `directory_contents(commit, path)`: appends `"/"` to a non-empty
path, runs one content-mode `ls-tree` query, feeds the raw lines to
`fill_trees`, and returns the last `/`-component of each line's path
field.  `none` models the uncaught exceptions: `None.splitlines()` when
the query failed (the `except CalledProcessError` clause is unreachable
because `cached_command` already swallowed the error), and the
`IndexError` `fill_trees` can raise. -/
def directory_contents (oracle : Oracle) (s : GState) (commit path : String) :
    Option (List String × GState × Nat) :=
  let path2 := if path ≠ "" then path ++ "/" else path
  let r := cached_command oracle s ["ls-tree", commit, path2] false
  match r.1 with
  | CmdOut.text t =>
    let contents := pySplitlines t
    match fill_trees r.2.1 commit contents with
    | .error _ => Option.none
    | .ok s2 =>
      some (contents.map (fun c => pyLast (pySplit '/' (linePath c))), s2, r.2.2)
  | _ => Option.none

/-- Argv of the `git show` call of `file_contents`. -/
def showArgv (s : GState) (commit path : String) : List String :=
  ["git", "--git-dir", s.gitrepo, "show", commit ++ ":" ++ path]

/-- Embedding of `file_contents(commit, path)`: a direct `check_output`, no cache, no
exception handling — the result is the oracle's verbatim, a
`CalledProcessError` propagating to the caller as `.error`.  Always one
invocation; the state is untouched. -/
def file_contents (oracle : Oracle) (s : GState) (commit path : String) :
    Except String String × GState × Nat :=
  (oracle (showArgv s commit path), s, 1)

/-- Embedding of `file_size(commit, path)`: answers from `self._sizes` when present;
otherwise fetches the contents (whose `CalledProcessError` propagates as
`.error`), takes `len(contents)` (0 on empty), and stores it. -/
def file_size (oracle : Oracle) (s : GState) (commit path : String) :
    Except String (Nat × GState × Nat) :=
  let inner :=
    match lookupAssoc s.sizes commit with
    | some d => d
    | Option.none => []
  let s1 :=
    match lookupAssoc s.sizes commit with
    | some _ => s
    | Option.none => { s with sizes := insertAssoc s.sizes commit [] }
  match lookupAssoc inner path with
  | some n => .ok (n, s1, 0)
  | Option.none =>
    match file_contents oracle s1 commit path with
    | (.error e, _, _) => .error e
    | (.ok contents, s2, k) =>
      let size := if contents ≠ "" then contents.length else 0
      .ok (size, { s2 with sizes := insertAssoc s2.sizes commit (insertAssoc inner path size) }, k)

/-! ## Spec-modelled external git log

The day-window behaviour of the external `git log --after --before`
traversal is not part of the source; it is modelled here from the spec. -/

/-- An author timestamp `(year, month, day, hour, minute, second)`. -/
abbrev TS := Nat × Nat × Nat × Nat × Nat × Nat

/-- Encoding of a timestamp that orders valid timestamps
chronologically. -/
def tsKey : TS → Nat
  | (y, m, d, h, mi, s) => ((((y * 100 + m) * 100 + d) * 100 + h) * 100 + mi) * 100 + s

/-- The key of midnight starting day `(y, m, d)`. -/
def dateKey (y m d : Nat) : Nat :=
  tsKey (y, m, d, 0, 0, 0)

/-- Midnight key of a `YYYY-MM-DD` argument string. -/
def dateKeyOfStr (s : String) : Nat :=
  match pySplit '-' s with
  | [ys, ms, ds] => dateKey (digitsVal ys.data) (digitsVal ms.data) (digitsVal ds.data)
  | _ => 0

/-- Modelled from the spec: the external `git log --after A --before B
--pretty=%H` history traversal, which is not part of the source.  Per the
spec it yields, in the repository's reverse-chronological history order,
the hashes of the commits authored in the half-open window
[midnight of A, midnight of B), one per line. -/
def specLogOracle (repoCommits : List (String × TS)) (gitdir : String) : Oracle :=
  fun argv =>
    match argv with
    | ["git", "--git-dir", g, "log", "--after", a, "--before", b, "--pretty=%H"] =>
      if g = gitdir then
        .ok (unlines ((repoCommits.filter (fun c =>
          dateKeyOfStr a ≤ tsKey c.2 && tsKey c.2 < dateKeyOfStr b)).map Prod.fst))
      else .error "fatal: not a git repository"
    | _ => .error "unsupported query"

/-! ## Concrete oracles used in witnesses and counterexamples -/

/-- An external tool that always succeeds with output `"out\n"`. -/
def okOracle : Oracle := fun _ => .ok "out\n"

/-- An external tool that always exits non-zero. -/
def failOracle : Oracle := fun _ => .error "boom"

/-! ## Lemmas about cached_command -/

theorem cached_command_of_lookup (oracle : Oracle) (s : GState) (args : List String)
    (mode : Bool) (v : CmdOut) (h : lookupAssoc s.cache (keyOf s args) = some v) :
    cached_command oracle s args mode = (v, s, 0) := by
  simp [cached_command, h]

theorem cached_command_gitrepo (oracle : Oracle) (s : GState) (args : List String)
    (mode : Bool) : (cached_command oracle s args mode).2.1.gitrepo = s.gitrepo := by
  simp only [cached_command]
  rcases lookupAssoc s.cache (keyOf s args) with _ | v
  · rcases oracle (fullArgv s args) with e | o <;> cases mode <;>
      by_cases hc : s.caching <;> simp [hc]
  · rfl

theorem cached_command_miss (oracle : Oracle) (s : GState) (args : List String)
    (mode : Bool) (h : lookupAssoc s.cache (keyOf s args) = Option.none)
    (hc : s.caching = true) :
    (cached_command oracle s args mode).2.1.cache
        = (keyOf s args, (cached_command oracle s args mode).1) :: s.cache
      ∧ (cached_command oracle s args mode).2.2 = 1 := by
  simp only [cached_command, h]
  rcases oracle (fullArgv s args) with e | o <;> cases mode <;>
    simp [hc, insertAssoc]

theorem cached_command_cache_of_not_caching (oracle : Oracle) (s : GState)
    (args : List String) (mode : Bool) (hc : s.caching = false) :
    (cached_command oracle s args mode).2.1.cache = s.cache := by
  simp only [cached_command]
  rcases lookupAssoc s.cache (keyOf s args) with _ | v
  · rcases oracle (fullArgv s args) with e | o <;> cases mode <;> simp [hc]
  · rfl

theorem cached_command_caching (oracle : Oracle) (s : GState) (args : List String)
    (mode : Bool) : (cached_command oracle s args mode).2.1.caching = s.caching := by
  simp only [cached_command]
  rcases lookupAssoc s.cache (keyOf s args) with _ | v
  · rcases oracle (fullArgv s args) with e | o <;> cases mode <;>
      by_cases hc : s.caching <;> simp [hc]
  · rfl

theorem cached_command_miss_invoked (oracle : Oracle) (s : GState)
    (args : List String) (mode : Bool)
    (h : lookupAssoc s.cache (keyOf s args) = Option.none) :
    (cached_command oracle s args mode).2.2 = 1 := by
  simp [cached_command, h]

/-! ## C1 -/

/-- C1: with caching enabled, a second `cached_command` call with the
same argument list and the same mode returns the value of the first call,
and across the two calls the external tool runs at most once. -/
theorem C1_cached_command_idempotent (oracle : Oracle) (s : GState)
    (args : List String) (mode : Bool) (hc : s.caching = true) :
    (cached_command oracle (cached_command oracle s args mode).2.1 args mode).1
        = (cached_command oracle s args mode).1
      ∧ (cached_command oracle s args mode).2.2
          + (cached_command oracle (cached_command oracle s args mode).2.1 args mode).2.2 ≤ 1 := by
  rcases hl : lookupAssoc s.cache (keyOf s args) with _ | v
  · obtain ⟨hcache, hinv⟩ := cached_command_miss oracle s args mode hl hc
    have hk : keyOf (cached_command oracle s args mode).2.1 args = keyOf s args := by
      simp [keyOf, fullArgv, cached_command_gitrepo]
    have h2 : lookupAssoc (cached_command oracle s args mode).2.1.cache
        (keyOf (cached_command oracle s args mode).2.1 args)
        = some (cached_command oracle s args mode).1 := by
      rw [hk, hcache]; simp [lookupAssoc]
    rw [cached_command_of_lookup _ _ _ _ _ h2]
    simp [hinv]
  · have h := cached_command_of_lookup oracle s args mode v hl
    rw [h]; simp [h]

/-- Witness for C1 at a concrete state, oracle, argument list and mode. -/
theorem C1_witness :
    (initState "repo" true).caching = true
      ∧ ((cached_command okOracle
            (cached_command okOracle (initState "repo" true) ["status"] false).2.1
            ["status"] false).1
          = (cached_command okOracle (initState "repo" true) ["status"] false).1
        ∧ (cached_command okOracle (initState "repo" true) ["status"] false).2.2
            + (cached_command okOracle
                (cached_command okOracle (initState "repo" true) ["status"] false).2.1
                ["status"] false).2.2 ≤ 1) :=
  ⟨rfl, C1_cached_command_idempotent okOracle (initState "repo" true) ["status"] false rfl⟩

/-! ## C2 -/

/-- C2: when the external query itself runs and exits non-zero, boolean
mode returns `False` and writes nothing to the process's error stream nor
to the shared error sink, while content mode returns the failure sentinel
`None` and appends the message naming the command and the underlying
error to both channels. -/
theorem C2_failure_modes (oracle : Oracle) (s : GState) (args : List String)
    (e : String) (hmiss : lookupAssoc s.cache (keyOf s args) = Option.none)
    (hfail : oracle (fullArgv s args) = .error e) :
    (cached_command oracle s args true).1 = CmdOut.bool false
      ∧ (cached_command oracle s args true).2.1.stderrLog = s.stderrLog
      ∧ (cached_command oracle s args true).2.1.errLog = s.errLog
      ∧ (cached_command oracle s args false).1 = CmdOut.none
      ∧ (cached_command oracle s args false).2.1.stderrLog
          = s.stderrLog ++ ["Error calling " ++ keyOf s args ++ ": " ++ e]
      ∧ (cached_command oracle s args false).2.1.errLog
          = s.errLog ++ ["Error calling " ++ keyOf s args ++ ": " ++ e] := by
  simp only [cached_command, hmiss, hfail]
  by_cases hc : s.caching <;> simp [hc, insertAssoc]

/-- Witness for C2 at a concrete state, failing oracle and argument
list. -/
theorem C2_witness :
    lookupAssoc (initState "repo" true).cache (keyOf (initState "repo" true) ["status"])
        = Option.none
      ∧ failOracle (fullArgv (initState "repo" true) ["status"]) = .error "boom"
      ∧ (cached_command failOracle (initState "repo" true) ["status"] true).1
          = CmdOut.bool false
      ∧ (cached_command failOracle (initState "repo" true) ["status"] true).2.1.stderrLog
          = (initState "repo" true).stderrLog
      ∧ (cached_command failOracle (initState "repo" true) ["status"] false).1
          = CmdOut.none
      ∧ (cached_command failOracle (initState "repo" true) ["status"] false).2.1.errLog
          = (initState "repo" true).errLog
            ++ ["Error calling " ++ keyOf (initState "repo" true) ["status"] ++ ": " ++ "boom"] := by
  have h := C2_failure_modes failOracle (initState "repo" true) ["status"] "boom" rfl rfl
  exact ⟨rfl, rfl, h.1, h.2.1, h.2.2.2.1, h.2.2.2.2.2⟩

/-! ## C9 -/

/-- C9: with caching disabled, `cached_command` never stores anything —
its cache is unchanged by every call — and starting from the empty cache
two identical calls each invoke the external tool once and leave the
cache empty. -/
theorem C9_cache_bypass (oracle : Oracle) (s : GState) (args : List String)
    (mode : Bool) (hc : s.caching = false) :
    (cached_command oracle s args mode).2.1.cache = s.cache
      ∧ (s.cache = [] →
          (cached_command oracle s args mode).2.2 = 1
            ∧ (cached_command oracle (cached_command oracle s args mode).2.1 args mode).2.2 = 1
            ∧ (cached_command oracle (cached_command oracle s args mode).2.1 args mode).2.1.cache
                = []) := by
  refine ⟨cached_command_cache_of_not_caching oracle s args mode hc, fun hemp => ?_⟩
  have h1 : lookupAssoc s.cache (keyOf s args) = Option.none := by
    rw [hemp]; rfl
  have hcache1 : (cached_command oracle s args mode).2.1.cache = [] := by
    rw [cached_command_cache_of_not_caching oracle s args mode hc, hemp]
  have hcaching1 : (cached_command oracle s args mode).2.1.caching = false := by
    rw [cached_command_caching, hc]
  have h2 : lookupAssoc (cached_command oracle s args mode).2.1.cache
      (keyOf (cached_command oracle s args mode).2.1 args) = Option.none := by
    rw [hcache1]; rfl
  refine ⟨cached_command_miss_invoked oracle s args mode h1,
    cached_command_miss_invoked oracle _ args mode h2, ?_⟩
  rw [cached_command_cache_of_not_caching oracle _ args mode hcaching1, hcache1]

/-- Witness for C9 at a concrete state, oracle and argument list. -/
theorem C9_witness :
    (initState "repo" false).caching = false
      ∧ (cached_command okOracle (initState "repo" false) ["status"] false).2.1.cache
          = (initState "repo" false).cache
      ∧ ((initState "repo" false).cache = [] →
          (cached_command okOracle (initState "repo" false) ["status"] false).2.2 = 1
            ∧ (cached_command okOracle
                (cached_command okOracle (initState "repo" false) ["status"] false).2.1
                ["status"] false).2.2 = 1
            ∧ (cached_command okOracle
                (cached_command okOracle (initState "repo" false) ["status"] false).2.1
                ["status"] false).2.1.cache = []) :=
  ⟨rfl, C9_cache_bypass okOracle (initState "repo" false) ["status"] false rfl⟩

/-! ## C10 -/

/-- C10: `file_contents` leaves the whole state (in particular the
command cache and both error channels) untouched, invokes the external
tool exactly once on every call, and hands the oracle's outcome to the
caller verbatim — a non-zero completion surfaces as the propagated
error, never as a sentinel, an empty result or a logged message. -/
theorem C10_file_contents_direct (oracle : Oracle) (s : GState)
    (commit path : String) :
    (file_contents oracle s commit path).2.1 = s
      ∧ (file_contents oracle s commit path).2.2 = 1
      ∧ (∀ e, oracle (showArgv s commit path) = .error e →
          (file_contents oracle s commit path).1 = .error e)
      ∧ (∀ o, oracle (showArgv s commit path) = .ok o →
          (file_contents oracle s commit path).1 = .ok o) := by
  refine ⟨rfl, rfl, ?_, ?_⟩ <;> intro x hx <;> simp [file_contents, hx]

/-- Witness for C10 at a concrete state and a failing oracle. -/
theorem C10_witness :
    (file_contents failOracle (initState "repo" true) "c" "p").2.1
        = initState "repo" true
      ∧ (file_contents failOracle (initState "repo" true) "c" "p").2.2 = 1
      ∧ failOracle (showArgv (initState "repo" true) "c" "p") = .error "boom"
      ∧ (file_contents failOracle (initState "repo" true) "c" "p").1 = .error "boom" :=
  ⟨(C10_file_contents_direct failOracle (initState "repo" true) "c" "p").1,
   (C10_file_contents_direct failOracle (initState "repo" true) "c" "p").2.1,
   rfl,
   (C10_file_contents_direct failOracle (initState "repo" true) "c" "p").2.2.1 "boom" rfl⟩

/-! ## Lemmas about fill_trees -/

/-- The set `self._trees[commit]` reads from inside `fill_trees`: the
stored one, or the fresh seed `set([''])`. -/
def baseOf (s : GState) (commit : String) : List String :=
  match lookupAssoc s.trees commit with
  | some ps => ps
  | Option.none => [""]

/-- Union of the directory-typed entries across a sequence of
listings. -/
def unionEntries : List (List String) → List String
  | [] => []
  | l :: ls => treeEntries l ++ unionEntries ls

theorem mem_unionEntries (p : String) (ls : List (List String)) :
    p ∈ unionEntries ls ↔ ∃ l ∈ ls, p ∈ treeEntries l := by
  induction ls with
  | nil => simp [unionEntries]
  | cons l ls ih => simp [unionEntries, ih]

theorem lookupAssoc_insertAssoc {α : Type} (l : List (String × α)) (k : String)
    (v : α) : lookupAssoc (insertAssoc l k v) k = some v := by
  simp [insertAssoc, lookupAssoc]

theorem treeEntries_cons (c : String) (rest : List String) :
    treeEntries (c :: rest)
      = if lineType c = some "tree" then linePath c :: treeEntries rest
        else treeEntries rest := by
  by_cases h : lineType c = some "tree" <;> simp [treeEntries, List.filter_cons, h]

theorem collectTrees_some (base : List String) (contents : List String)
    (hwf : ∀ c ∈ contents, (lineType c).isSome) :
    ∃ l, collectTrees base contents = some l
      ∧ ∀ p, (p ∈ l ↔ p ∈ treeEntries contents ∧ p ∉ base) := by
  induction contents with
  | nil => exact ⟨[], rfl, by simp [treeEntries]⟩
  | cons c rest ih =>
    obtain ⟨typ, htyp⟩ := Option.isSome_iff_exists.mp (hwf c (by simp))
    obtain ⟨l', hl', hmem⟩ := ih (fun x hx => hwf x (by simp [hx]))
    by_cases ht : typ = "tree"
    · subst ht
      by_cases hb : linePath c ∈ base
      · refine ⟨l', by simp [collectTrees, htyp, hl', hb], fun p => ?_⟩
        rw [hmem p, treeEntries_cons, if_pos htyp]
        constructor
        · rintro ⟨hp, hnb⟩; exact ⟨by simp [hp], hnb⟩
        · rintro ⟨hp, hnb⟩
          rcases List.mem_cons.mp hp with h | h
          · exact absurd (h ▸ hb) hnb
          · exact ⟨h, hnb⟩
      · refine ⟨linePath c :: l', by simp [collectTrees, htyp, hl', hb], fun p => ?_⟩
        rw [treeEntries_cons, if_pos htyp]
        constructor
        · rintro h
          rcases List.mem_cons.mp h with h | h
          · exact ⟨by simp [h], h ▸ hb⟩
          · obtain ⟨h1, h2⟩ := (hmem p).mp h
            exact ⟨by simp [h1], h2⟩
        · rintro ⟨hp, hnb⟩
          rcases List.mem_cons.mp hp with h | h
          · exact List.mem_cons.mpr (Or.inl h)
          · exact List.mem_cons.mpr (Or.inr ((hmem p).mpr ⟨h, hnb⟩))
    · refine ⟨l', by simp [collectTrees, htyp, hl', ht], fun p => ?_⟩
      rw [hmem p, treeEntries_cons, if_neg (by simp [htyp, ht])]

/-- The state after the conditional seeding
`self._trees[commit] = set([''])` at the top of `fill_trees`. -/
def seedState (s : GState) (commit : String) : GState :=
  match lookupAssoc s.trees commit with
  | some _ => s
  | Option.none => { s with trees := insertAssoc s.trees commit [""] }

theorem fill_trees_eq_ok (s : GState) (commit : String) (contents : List String)
    (l : List String) (hc : collectTrees (baseOf s commit) contents = some l) :
    fill_trees s commit contents
      = .ok { seedState s commit with
              trees := insertAssoc (seedState s commit).trees commit
                (baseOf s commit ++ l) } := by
  rcases hlk : lookupAssoc s.trees commit with _ | ps <;>
    simp only [baseOf, hlk] at hc <;>
    simp [fill_trees, seedState, baseOf, hlk, hc]

theorem fill_trees_ok (s : GState) (commit : String) (contents : List String)
    (hwf : ∀ c ∈ contents, (lineType c).isSome) :
    ∃ t cs, fill_trees s commit contents = .ok t
      ∧ lookupAssoc t.trees commit = some (baseOf s commit ++ cs)
      ∧ (∀ p, p ∈ cs ↔ p ∈ treeEntries contents ∧ p ∉ baseOf s commit) := by
  obtain ⟨l, hl, hmem⟩ := collectTrees_some (baseOf s commit) contents hwf
  exact ⟨_, l, fill_trees_eq_ok s commit contents l hl,
    lookupAssoc_insertAssoc _ _ _, hmem⟩

theorem fillManyTrees_nil (s : GState) (commit : String) :
    fillManyTrees s commit [] = .ok s := rfl

theorem fillManyTrees_cons (s : GState) (commit : String) (l : List String)
    (ls : List (List String)) :
    fillManyTrees s commit (l :: ls)
      = match fill_trees s commit l with
        | .ok t => fillManyTrees t commit ls
        | .error e => .error e := by
  show Except.bind (fill_trees s commit l) (fun t => fillManyTrees t commit ls) = _
  rcases fill_trees s commit l with e | t <;> rfl

theorem fillMany_mem (commit : String) (ls : List (List String)) :
    ∀ (s : GState) (ps : List String) (t : GState),
      lookupAssoc s.trees commit = some ps →
      (∀ l ∈ ls, ∀ c ∈ l, (lineType c).isSome) →
      fillManyTrees s commit ls = .ok t →
      ∃ qs, lookupAssoc t.trees commit = some qs
        ∧ (∀ p, p ∈ qs ↔ p ∈ ps ∨ p ∈ unionEntries ls) := by
  induction ls with
  | nil =>
    intro s ps t hex _ hfill
    rw [fillManyTrees_nil] at hfill
    cases hfill
    exact ⟨ps, hex, by simp [unionEntries]⟩
  | cons l ls ih =>
    intro s ps t hex hwf hfill
    obtain ⟨t1, cs, heq, hlk1, hcs⟩ := fill_trees_ok s commit l (hwf l (by simp))
    rw [fillManyTrees_cons, heq] at hfill
    obtain ⟨qs, hqs, hmem⟩ :=
      ih t1 (baseOf s commit ++ cs) t hlk1 (fun x hx => hwf x (by simp [hx])) hfill
    have hbase : baseOf s commit = ps := by simp [baseOf, hex]
    refine ⟨qs, hqs, fun p => ?_⟩
    rw [hmem p]
    constructor
    · rintro (hp | hp)
      · rcases List.mem_append.mp hp with h | h
        · exact Or.inl (hbase ▸ h)
        · exact Or.inr (by simp [unionEntries, ((hcs p).mp h).1])
      · exact Or.inr (by simp [unionEntries, hp])
    · rintro (hp | hp)
      · exact Or.inl (List.mem_append.mpr (Or.inl (hbase ▸ hp)))
      · rcases List.mem_append.mp hp with h | h
        · by_cases hin : p ∈ baseOf s commit
          · exact Or.inl (List.mem_append.mpr (Or.inl hin))
          · exact Or.inl (List.mem_append.mpr (Or.inr ((hcs p).mpr ⟨h, hin⟩)))
        · exact Or.inr h

theorem fillMany_fresh_mem (s : GState) (commit : String) (l : List String)
    (ls : List (List String)) (t : GState)
    (hfresh : lookupAssoc s.trees commit = Option.none)
    (hwf : ∀ x ∈ l :: ls, ∀ c ∈ x, (lineType c).isSome)
    (hfill : fillManyTrees s commit (l :: ls) = .ok t) :
    ∃ qs, lookupAssoc t.trees commit = some qs
      ∧ (∀ p, p ∈ qs ↔ p = "" ∨ p ∈ unionEntries (l :: ls)) := by
  obtain ⟨t1, cs, heq, hlk1, hcs⟩ := fill_trees_ok s commit l (hwf l (by simp))
  rw [fillManyTrees_cons, heq] at hfill
  obtain ⟨qs, hqs, hmem⟩ :=
    fillMany_mem commit ls t1 (baseOf s commit ++ cs) t hlk1
      (fun x hx => hwf x (by simp [hx])) hfill
  have hbase : baseOf s commit = [""] := by simp [baseOf, hfresh]
  refine ⟨qs, hqs, fun p => ?_⟩
  rw [hmem p]
  rw [hbase] at hcs ⊢
  constructor
  · rintro (hp | hp)
    · rcases List.mem_append.mp hp with h | h
      · exact Or.inl (by simpa using h)
      · exact Or.inr (by simp [unionEntries, ((hcs p).mp h).1])
    · exact Or.inr (by simp [unionEntries, hp])
  · rintro (hp | hp)
    · exact Or.inl (List.mem_append.mpr (Or.inl (by simp [hp])))
    · rcases (by simpa [unionEntries] using hp : p ∈ treeEntries l ∨ p ∈ unionEntries ls)
        with h | h
      · by_cases hin : p ∈ [""]
        · exact Or.inl (List.mem_append.mpr (Or.inl hin))
        · exact Or.inl (List.mem_append.mpr (Or.inr ((hcs p).mpr ⟨h, hin⟩)))
      · exact Or.inr h

theorem fill_trees_eq_error (u : GState) (commit : String) (l : List String)
    (hc : collectTrees (baseOf u commit) l = Option.none) :
    fill_trees u commit l = .error (seedState u commit) := by
  rcases hlk : lookupAssoc u.trees commit with _ | ps <;>
    simp only [baseOf, hlk] at hc <;>
    simp [fill_trees, seedState, hlk, hc]

theorem fill_trees_mono (u : GState) (commit : String) (l : List String)
    (u' : GState) (h : fill_trees u commit l = .ok u') :
    ∀ p, p ∈ treesOf u commit → p ∈ treesOf u' commit := by
  intro p hp
  rcases hlk : lookupAssoc u.trees commit with _ | ps
  · simp [treesOf, hlk] at hp
  · rcases hcol : collectTrees (baseOf u commit) l with _ | cs
    · rw [fill_trees_eq_error u commit l hcol] at h
      exact absurd h (by simp)
    · rw [fill_trees_eq_ok u commit l cs hcol] at h
      cases h
      have hbase : baseOf u commit = ps := by simp [baseOf, hlk]
      simp only [treesOf, lookupAssoc_insertAssoc, Option.getD_some]
      exact List.mem_append.mpr (Or.inl (by rw [hbase]; simpa [treesOf, hlk] using hp))

/-! ## C3 and C4 -/

/-- C3 as stated is false: the set is seeded with the root (empty) path,
which is not a directory-typed entry of any listing.  After one `fill`
with an empty listing the known-directory set contains `""` while the
union of the directory-typed entries is empty. -/
theorem C3_counterexample :
    (fillManyTrees (initState "r" true) "c" [[]]).toOption.map
        (fun t => decide (("" : String) ∈ treesOf t "c")) = some true
      ∧ unionEntries [[]] = [] := by
  constructor <;> rfl

/-- C3 (amended): for a commit with no prior knowledge, after one or more
`fill` calls the known-directory set equals the root (empty path, seeded
on first contact) together with the union of the directory-typed entries
across all the listings; and each single `fill` only ever grows the set
(paths are added, never removed). -/
theorem C3_trees_union_mono (s : GState) (commit : String) (l : List String)
    (ls : List (List String)) (t : GState)
    (hfresh : lookupAssoc s.trees commit = Option.none)
    (hwf : ∀ x ∈ l :: ls, ∀ c ∈ x, (lineType c).isSome)
    (hfill : fillManyTrees s commit (l :: ls) = .ok t) :
    (∀ p, p ∈ treesOf t commit ↔ (p = "" ∨ p ∈ unionEntries (l :: ls)))
      ∧ (∀ u u' x, fill_trees u commit x = .ok u' →
          ∀ p, p ∈ treesOf u commit → p ∈ treesOf u' commit) := by
  obtain ⟨qs, hqs, hmem⟩ := fillMany_fresh_mem s commit l ls t hfresh hwf hfill
  refine ⟨fun p => ?_, fun u u' x h => fill_trees_mono u commit x u' h⟩
  rw [treesOf, hqs]
  simpa using hmem p

/-- The state after one `fill` of commit `"c"` with a one-directory
listing, used by the C3 and C4 witnesses. -/
def exFillState : GState :=
  (fillManyTrees (initState "r" true) "c" [["040000 tree abc\tsub"]]).toOption.getD
    (initState "r" true)

/-- Witness for the amended C3 at a concrete state and listing. -/
theorem C3_witness :
    lookupAssoc (initState "r" true).trees "c" = Option.none
      ∧ ((∀ p, p ∈ treesOf exFillState "c"
            ↔ (p = "" ∨ p ∈ unionEntries [["040000 tree abc\tsub"]]))
          ∧ (∀ u u' x, fill_trees u "c" x = .ok u' →
              ∀ p, p ∈ treesOf u "c" → p ∈ treesOf u' "c")) :=
  ⟨rfl, C3_trees_union_mono (initState "r" true) "c" ["040000 tree abc\tsub"] []
      exFillState rfl (by decide) rfl⟩

/-- C4 as stated is false at the root path: after a `fill` with an empty
listing, `is_dir` answers `true` for the empty path although no
directory-typed entry ever registered it. -/
theorem C4_counterexample :
    ((fillManyTrees (initState "r" true) "c" [[]]).toOption.bind
        (fun t => (is_dir failOracle t "c" "").map (fun r => r.1))) = some true
      ∧ (("" : String) ∈ unionEntries [[]] → False) := by
  refine ⟨rfl, fun h => ?_⟩
  simp [unionEntries, treeEntries] at h

/-- C4 (amended): once at least one `fill` has occurred for a commit,
`is_dir(commit, path)` answers pure membership without querying the
tool: it is `true` iff `path` is the seeded root (empty path) or was
registered as a directory-typed entry by some prior `fill`. -/
theorem C4_is_dir_after_fill (oracle : Oracle) (s : GState) (commit : String)
    (l : List String) (ls : List (List String)) (t : GState) (path : String)
    (hfresh : lookupAssoc s.trees commit = Option.none)
    (hwf : ∀ x ∈ l :: ls, ∀ c ∈ x, (lineType c).isSome)
    (hfill : fillManyTrees s commit (l :: ls) = .ok t) :
    ∃ b, is_dir oracle t commit path = some (b, t, 0)
      ∧ (b = true ↔ (path = "" ∨ path ∈ unionEntries (l :: ls))) := by
  obtain ⟨qs, hqs, hmem⟩ := fillMany_fresh_mem s commit l ls t hfresh hwf hfill
  refine ⟨decide (path ∈ qs), by simp [is_dir, hqs], ?_⟩
  simpa using hmem path

/-- Witness for the amended C4 at a concrete state, listing and path. -/
theorem C4_witness :
    lookupAssoc (initState "r" true).trees "c" = Option.none
      ∧ (∃ b, is_dir failOracle exFillState "c" "sub" = some (b, exFillState, 0)
          ∧ (b = true ↔ ("sub" = "" ∨ "sub" ∈ unionEntries [["040000 tree abc\tsub"]]))) :=
  ⟨rfl, C4_is_dir_after_fill failOracle (initState "r" true) "c"
      ["040000 tree abc\tsub"] [] exFillState "sub" rfl (by decide) rfl⟩

/-! ## C7 -/

/-- C7 as stated is false on a failed fetch: `file_size` calls
`file_contents`, whose `CalledProcessError` is not handled anywhere in
`file_size`, so a non-zero `git show` makes the call raise instead of
resolving to 0. -/
theorem C7_counterexample :
    file_size failOracle (initState "r" true) "c" "p" = .error "boom" := rfl

/-- C7 (amended): per (commit, path) the content length is computed at
most once — the first call fetches the content and stores its length,
every subsequent call returns the same integer with no fetch — and empty
content resolves to 0; a failed fetch, however, propagates to the caller
as the raised error instead of resolving to 0. -/
theorem C7_file_size_cached (oracle : Oracle) (s : GState) (commit path : String) :
    (∀ out, lookupAssoc ((lookupAssoc s.sizes commit).getD []) path = Option.none →
        oracle (showArgv s commit path) = .ok out →
        ∃ s', file_size oracle s commit path = .ok (out.length, s', 1)
          ∧ file_size oracle s' commit path = .ok (out.length, s', 0)
          ∧ (out = "" → out.length = 0))
      ∧ (∀ e, lookupAssoc ((lookupAssoc s.sizes commit).getD []) path = Option.none →
          oracle (showArgv s commit path) = .error e →
          file_size oracle s commit path = .error e) := by
  constructor
  · intro out hmiss hok
    simp only [showArgv] at hok
    have hsize : (if out = "" then 0 else out.length) = out.length := by
      by_cases h : out = "" <;> simp [h]
    rcases hsz : lookupAssoc s.sizes commit with _ | d
    · simp only [hsz, Option.getD_none] at hmiss
      refine ⟨{ s with sizes := (insertAssoc (insertAssoc s.sizes commit []) commit (insertAssoc [] path out.length)) }, ?_, ?_, fun h => by simp [h]⟩
      · simp [file_size, hsz, hmiss, file_contents, showArgv, hok, hsize, insertAssoc]
      · simp [file_size, file_contents, showArgv, insertAssoc, lookupAssoc]
    · simp only [hsz, Option.getD_some] at hmiss
      refine ⟨{ s with sizes := (insertAssoc s.sizes commit (insertAssoc d path out.length)) }, ?_, ?_, fun h => by simp [h]⟩
      · simp [file_size, hsz, hmiss, file_contents, showArgv, hok, hsize, insertAssoc]
      · simp [file_size, file_contents, showArgv, insertAssoc, lookupAssoc]
  · intro e hmiss herr
    simp only [showArgv] at herr
    rcases hsz : lookupAssoc s.sizes commit with _ | d <;>
      simp only [hsz, Option.getD_none, Option.getD_some] at hmiss <;>
      simp [file_size, hsz, hmiss, file_contents, showArgv, herr]

/-- Witness for the amended C7 at a concrete state and oracle. -/
theorem C7_witness :
    lookupAssoc ((lookupAssoc (initState "r" true).sizes "c").getD []) "p" = Option.none
      ∧ okOracle (showArgv (initState "r" true) "c" "p") = .ok "out\n"
      ∧ (∃ s', file_size okOracle (initState "r" true) "c" "p"
            = .ok ("out\n".length, s', 1)
          ∧ file_size okOracle s' "c" "p" = .ok ("out\n".length, s', 0)
          ∧ ("out\n" = "" → "out\n".length = 0)) :=
  ⟨rfl, rfl,
    (C7_file_size_cached okOracle (initState "r" true) "c" "p").1 "out\n" rfl rfl⟩

/-! ## C8 -/

/-- C8: on a failing `ls-tree`, `directory_contents` does not return an
empty sequence: `cached_command` has already converted the
`CalledProcessError` into `None` (logging the error on the way), so
`None.splitlines()` raises an `AttributeError` that the
`except CalledProcessError` clause cannot catch — the `return []` branch
is unreachable and the call crashes (modelled as `Option.none`). -/
theorem C8_directory_contents_failure :
    directory_contents failOracle (initState "r" true) "c" "p" = Option.none
      ∧ (cached_command failOracle (initState "r" true) ["ls-tree", "c", "p/"] false).2.1.errLog
          = ["Error calling git --git-dir r/.git ls-tree c p/: boom"] := by
  constructor <;> rfl

/-! ## Decimal digit strings

Python's `sorted(...)[0]` on the `%Y` year lines is a lexicographic
minimum of strings; the following lemmas show it coincides with the
numeric minimum on equal-length digit strings. -/

theorem digitsVal_foldl_eq (l : List Char) :
    ∀ n : Nat, l.foldl (fun n c => 10 * n + (c.toNat - 48)) n
      = n * 10 ^ l.length + digitsVal l := by
  induction l with
  | nil => intro n; simp [digitsVal]
  | cons c cs ih =>
    intro n
    show cs.foldl _ (10 * n + (c.toNat - 48)) = n * 10 ^ (c :: cs).length + digitsVal (c :: cs)
    rw [ih (10 * n + (c.toNat - 48))]
    have hv : digitsVal (c :: cs) = (c.toNat - 48) * 10 ^ cs.length + digitsVal cs := by
      show cs.foldl _ (10 * 0 + (c.toNat - 48)) = _
      rw [ih (10 * 0 + (c.toNat - 48))]
      ring
    rw [hv, List.length_cons]
    ring

theorem digitsVal_cons (c : Char) (cs : List Char) :
    digitsVal (c :: cs) = (c.toNat - 48) * 10 ^ cs.length + digitsVal cs := by
  show cs.foldl _ (10 * 0 + (c.toNat - 48)) = _
  rw [digitsVal_foldl_eq cs (10 * 0 + (c.toNat - 48))]
  ring

theorem digitsVal_lt (l : List Char) (h : ∀ c ∈ l, isDigitChar c = true) :
    digitsVal l < 10 ^ l.length := by
  induction l with
  | nil => simp [digitsVal]
  | cons c cs ih =>
    have hd : c.toNat - 48 ≤ 9 := by
      have := h c (by simp)
      simp [isDigitChar] at this
      omega
    have h2 := ih (fun x hx => h x (by simp [hx]))
    rw [digitsVal_cons, List.length_cons]
    calc (c.toNat - 48) * 10 ^ cs.length + digitsVal cs
        < (c.toNat - 48) * 10 ^ cs.length + 10 ^ cs.length :=
          Nat.add_lt_add_left h2 _
      _ = (c.toNat - 48 + 1) * 10 ^ cs.length := by ring
      _ ≤ 10 * 10 ^ cs.length := Nat.mul_le_mul_right _ (by omega)
      _ = 10 ^ (cs.length + 1) := by ring

theorem lexLt_iff_digitsVal (as : List Char) :
    ∀ bs, as.length = bs.length →
      (∀ c ∈ as, isDigitChar c = true) → (∀ c ∈ bs, isDigitChar c = true) →
      (lexLt as bs = true ↔ digitsVal as < digitsVal bs) := by
  induction as with
  | nil =>
    intro bs hlen _ _
    cases bs with
    | nil => simp [lexLt, digitsVal]
    | cons b bs => simp at hlen
  | cons a as ih =>
    intro bs hlen ha hb
    cases bs with
    | nil => simp at hlen
    | cons b bs =>
      simp only [List.length_cons, Nat.add_right_cancel_iff] at hlen
      have haD := ha a (by simp)
      have hbD := hb b (by simp)
      simp only [isDigitChar, Bool.and_eq_true, decide_eq_true_eq] at haD hbD
      have hva : digitsVal as < 10 ^ bs.length := by
        rw [← hlen]; exact digitsVal_lt as (fun x hx => ha x (by simp [hx]))
      have hvb : digitsVal bs < 10 ^ bs.length :=
        digitsVal_lt bs (fun x hx => hb x (by simp [hx]))
      rw [digitsVal_cons, digitsVal_cons, hlen]
      by_cases h1 : a.toNat < b.toNat
      · rw [show lexLt (a :: as) (b :: bs) = true by simp [lexLt, h1]]
        simp only [true_iff]
        have hstep : (a.toNat - 48) + 1 ≤ b.toNat - 48 := by omega
        calc (a.toNat - 48) * 10 ^ bs.length + digitsVal as
            < (a.toNat - 48) * 10 ^ bs.length + 10 ^ bs.length :=
              Nat.add_lt_add_left hva _
          _ = ((a.toNat - 48) + 1) * 10 ^ bs.length := by ring
          _ ≤ (b.toNat - 48) * 10 ^ bs.length := Nat.mul_le_mul_right _ hstep
          _ ≤ (b.toNat - 48) * 10 ^ bs.length + digitsVal bs := Nat.le_add_right _ _
      · by_cases h2 : b.toNat < a.toNat
        · rw [show lexLt (a :: as) (b :: bs) = false by simp [lexLt, h1, h2]]
          have hstep : (b.toNat - 48) + 1 ≤ a.toNat - 48 := by omega
          have hle : (b.toNat - 48) * 10 ^ bs.length + digitsVal bs
              ≤ (a.toNat - 48) * 10 ^ bs.length + digitsVal as :=
            calc (b.toNat - 48) * 10 ^ bs.length + digitsVal bs
                ≤ (b.toNat - 48) * 10 ^ bs.length + 10 ^ bs.length :=
                  Nat.le_of_lt (Nat.add_lt_add_left hvb _)
              _ = ((b.toNat - 48) + 1) * 10 ^ bs.length := by ring
              _ ≤ (a.toNat - 48) * 10 ^ bs.length := Nat.mul_le_mul_right _ hstep
              _ ≤ (a.toNat - 48) * 10 ^ bs.length + digitsVal as := Nat.le_add_right _ _
          simp [Nat.not_lt.mpr hle]
        · have hEq : a.toNat = b.toNat := by omega
          rw [show lexLt (a :: as) (b :: bs) = lexLt as bs by simp [lexLt, h1, h2]]
          rw [ih bs hlen (fun x hx => ha x (by simp [hx])) (fun x hx => hb x (by simp [hx])),
            hEq]
          generalize (b.toNat - 48) * 10 ^ bs.length = Q
          omega

theorem isPySpace_eq_false_of_digit (c : Char) (h : isDigitChar c = true) :
    isPySpace c = false := by
  simp only [isDigitChar, Bool.and_eq_true, decide_eq_true_eq] at h
  simp only [isPySpace, Bool.or_eq_false_iff, decide_eq_false_iff_not]
  refine ⟨⟨⟨⟨⟨?_, ?_⟩, ?_⟩, ?_⟩, ?_⟩, ?_⟩ <;> rintro rfl <;> revert h <;> decide

theorem dropWhile_eq_self_of_all (p : Char → Bool) (xs : List Char)
    (h : ∀ c ∈ xs, p c = false) : xs.dropWhile p = xs := by
  cases xs with
  | nil => rfl
  | cons c cs => simp [List.dropWhile_cons, h c (by simp)]

theorem pyStrip_of_digits (l : String) (h : ∀ c ∈ l.data, isDigitChar c = true) :
    pyStrip l = l := by
  have h1 : ∀ c ∈ l.data, isPySpace c = false :=
    fun c hc => isPySpace_eq_false_of_digit c (h c hc)
  have h2 : l.data.dropWhile isPySpace = l.data := dropWhile_eq_self_of_all _ _ h1
  have h3 : l.data.reverse.dropWhile isPySpace = l.data.reverse :=
    dropWhile_eq_self_of_all _ _ (fun c hc => h1 c (List.mem_reverse.mp hc))
  obtain ⟨d⟩ := l
  simp only [pyStrip] at *
  rw [h2, h3, List.reverse_reverse]

theorem pyInt_of_digits (l : String) (h : ∀ c ∈ l.data, isDigitChar c = true) :
    pyInt l = digitsVal l.data := by
  rw [pyInt, pyStrip_of_digits l h]

theorem pyMin_fold_spec (xs : List String) :
    ∀ x : String,
      (∀ y ∈ x :: xs, (∀ c ∈ y.data, isDigitChar c = true) ∧ y.data.length = 4) →
      ((xs.foldl pyMin2 x) ∈ x :: xs
        ∧ (∀ y ∈ x :: xs, digitsVal (xs.foldl pyMin2 x).data ≤ digitsVal y.data)) := by
  induction xs with
  | nil =>
    intro x _
    exact ⟨by simp, by intro y hy; simp at hy; subst hy; exact Nat.le_refl _⟩
  | cons z zs ih =>
    intro x hd
    have hx := hd x (by simp)
    have hz := hd z (by simp)
    have hm : (∀ c ∈ (pyMin2 x z).data, isDigitChar c = true)
        ∧ (pyMin2 x z).data.length = 4 := by
      rw [pyMin2]
      by_cases hc : lexLt z.data x.data = true <;> simp [hc]
      exacts [hz, hx]
    have hle : digitsVal (pyMin2 x z).data ≤ digitsVal x.data
        ∧ digitsVal (pyMin2 x z).data ≤ digitsVal z.data := by
      rw [pyMin2]
      by_cases hc : lexLt z.data x.data = true
      · have := (lexLt_iff_digitsVal z.data x.data (by rw [hz.2, hx.2]) hz.1 hx.1).mp hc
        simp [hc]
        omega
      · have := (lexLt_iff_digitsVal z.data x.data (by rw [hz.2, hx.2]) hz.1 hx.1).not.mp
          (by simpa using hc)
        simp [hc]
        omega
    have hd' : ∀ y ∈ pyMin2 x z :: zs,
        (∀ c ∈ y.data, isDigitChar c = true) ∧ y.data.length = 4 := by
      intro y hy
      rcases List.mem_cons.mp hy with h | h
      · exact h ▸ hm
      · exact hd y (by simp [h])
    obtain ⟨hmem, hmin⟩ := ih (pyMin2 x z) hd'
    constructor
    · show zs.foldl pyMin2 (pyMin2 x z) ∈ x :: z :: zs
      rcases List.mem_cons.mp hmem with h | h
      · rw [h, pyMin2]
        by_cases hc : lexLt z.data x.data = true <;> simp [hc]
      · simp [h]
    · intro y hy
      show digitsVal (zs.foldl pyMin2 (pyMin2 x z)).data ≤ digitsVal y.data
      rcases List.mem_cons.mp hy with h | h
      · rw [h]
        exact Nat.le_trans (hmin (pyMin2 x z) (by simp)) hle.1
      · rcases List.mem_cons.mp h with h' | h'
        · rw [h']
          exact Nat.le_trans (hmin (pyMin2 x z) (by simp)) hle.2
        · exact hmin y (by simp [h'])

/-! ## C6 -/

theorem cached_command_lookup_other (oracle : Oracle) (s : GState)
    (args : List String) (mode : Bool) (k : String) (hne : k ≠ keyOf s args) :
    lookupAssoc (cached_command oracle s args mode).2.1.cache k
      = lookupAssoc s.cache k := by
  rcases hl : lookupAssoc s.cache (keyOf s args) with _ | v
  · by_cases hc : s.caching = true
    · obtain ⟨hcache, _⟩ := cached_command_miss oracle s args mode hl hc
      rw [hcache]
      simp [lookupAssoc, Ne.symm hne]
    · rw [cached_command_cache_of_not_caching oracle s args mode (by simpa using hc)]
  · rw [cached_command_of_lookup oracle s args mode v hl]

theorem keys_firstYear_lastYear_ne (s : GState) :
    keyOf s firstYearArgs ≠ keyOf s lastYearArgs := by
  intro h
  have h1 : keyOf s firstYearArgs
      = "git" ++ " " ++ ("--git-dir" ++ " " ++ (s.gitrepo ++ " " ++ joinSpace firstYearArgs)) :=
    rfl
  have h2 : keyOf s lastYearArgs
      = "git" ++ " " ++ ("--git-dir" ++ " " ++ (s.gitrepo ++ " " ++ joinSpace lastYearArgs)) :=
    rfl
  rw [h1, h2] at h
  have hd := congrArg String.data h
  simp only [String.data_append, List.append_assoc] at hd
  have e1 := List.append_cancel_left hd
  have e2 := List.append_cancel_left e1
  have e3 := List.append_cancel_left e2
  have e4 := List.append_cancel_left e3
  have e5 := List.append_cancel_left e4
  have e6 := List.append_cancel_left e5
  exact absurd e6 (by decide)

theorem first_year_spec (oracle : Oracle) (s : GState) (t1 : String)
    (hm1 : lookupAssoc s.cache (keyOf s firstYearArgs) = Option.none)
    (ho1 : oracle (fullArgv s firstYearArgs) = .ok t1)
    (hne : pySplitlines t1 ≠ [])
    (hdig : ∀ l ∈ pySplitlines t1,
      (∀ c ∈ l.data, isDigitChar c = true) ∧ l.data.length = 4) :
    ∃ fy, first_year oracle s
        = some (fy, (cached_command oracle s firstYearArgs false).2.1, 1)
      ∧ fy ∈ (pySplitlines t1).map pyInt
      ∧ (∀ z ∈ (pySplitlines t1).map pyInt, fy ≤ z) := by
  have hval : (cached_command oracle s firstYearArgs false).1 = CmdOut.text t1 := by
    simp [cached_command, hm1, ho1]
  have hinv := cached_command_miss_invoked oracle s firstYearArgs false hm1
  cases hl : pySplitlines t1 with
  | nil => exact absurd hl hne
  | cons x xs =>
    rw [hl] at hdig
    obtain ⟨hmem, hmin⟩ := pyMin_fold_spec xs x hdig
    refine ⟨pyInt (xs.foldl pyMin2 x), ?_, ?_, ?_⟩
    · simp [first_year, hval, hl, pyMinStr, hinv]
    · exact List.mem_map_of_mem pyInt hmem
    · intro z hz
      obtain ⟨y, hy, rfl⟩ := List.mem_map.mp hz
      have hdm := hdig (xs.foldl pyMin2 x) hmem
      have hdy := hdig y hy
      rw [pyInt_of_digits _ hdm.1, pyInt_of_digits _ hdy.1]
      exact hmin y hy

theorem last_year_spec (oracle : Oracle) (s : GState) (t2 : String)
    (hm2 : lookupAssoc s.cache (keyOf s lastYearArgs) = Option.none)
    (ho2 : oracle (fullArgv s lastYearArgs) = .ok t2) :
    last_year oracle s
      = some (pyInt t2, (cached_command oracle s lastYearArgs false).2.1, 1) := by
  have hval : (cached_command oracle s lastYearArgs false).1 = CmdOut.text t2 := by
    simp [cached_command, hm2, ho2]
  have hinv := cached_command_miss_invoked oracle s lastYearArgs false hm2
  simp [last_year, hval, hinv]

/-- C6: the year range built at construction is `range(first, last + 1)`
where `first` is the numerically smallest year printed for the zero-parent
commits of `master` and `last` is the year printed for its most recent
commit; for `first ≤ last` it is exactly the inclusive ascending sequence
of years from `first` to `last`. -/
theorem C6_year_range (oracle : Oracle) (s : GState) (t1 t2 : String)
    (hm1 : lookupAssoc s.cache (keyOf s firstYearArgs) = Option.none)
    (hm2 : lookupAssoc s.cache (keyOf s lastYearArgs) = Option.none)
    (ho1 : oracle (fullArgv s firstYearArgs) = .ok t1)
    (ho2 : oracle (fullArgv s lastYearArgs) = .ok t2)
    (hne : pySplitlines t1 ≠ [])
    (hdig : ∀ l ∈ pySplitlines t1,
      (∀ c ∈ l.data, isDigitChar c = true) ∧ l.data.length = 4) :
    ∃ fy s2, initYears oracle s = some (pyRange fy (pyInt t2 + 1), s2)
      ∧ fy ∈ (pySplitlines t1).map pyInt
      ∧ (∀ z ∈ (pySplitlines t1).map pyInt, fy ≤ z)
      ∧ (fy ≤ pyInt t2 →
          ∀ z, z ∈ pyRange fy (pyInt t2 + 1) ↔ (fy ≤ z ∧ z ≤ pyInt t2)) := by
  obtain ⟨fy, hfy, hmem, hmin⟩ := first_year_spec oracle s t1 hm1 ho1 hne hdig
  have hrepo : (cached_command oracle s firstYearArgs false).2.1.gitrepo = s.gitrepo :=
    cached_command_gitrepo oracle s firstYearArgs false
  have hkey : keyOf (cached_command oracle s firstYearArgs false).2.1 lastYearArgs
      = keyOf s lastYearArgs := by
    simp [keyOf, fullArgv, hrepo]
  have hm2' : lookupAssoc (cached_command oracle s firstYearArgs false).2.1.cache
      (keyOf (cached_command oracle s firstYearArgs false).2.1 lastYearArgs)
      = Option.none := by
    rw [hkey, cached_command_lookup_other oracle s firstYearArgs false _
      (Ne.symm (keys_firstYear_lastYear_ne s))]
    exact hm2
  have ho2' : oracle (fullArgv (cached_command oracle s firstYearArgs false).2.1 lastYearArgs)
      = .ok t2 := by
    rw [show fullArgv (cached_command oracle s firstYearArgs false).2.1 lastYearArgs
        = fullArgv s lastYearArgs by simp [fullArgv, hrepo]]
    exact ho2
  have hly := last_year_spec oracle (cached_command oracle s firstYearArgs false).2.1 t2
    hm2' ho2'
  refine ⟨fy,
    (cached_command oracle (cached_command oracle s firstYearArgs false).2.1 lastYearArgs false).2.1,
    ?_, hmem, hmin, ?_⟩
  · simp [initYears, hfy, hly]
  · intro hfl z
    rw [pyRange, List.mem_range'_1]
    omega

/-- External tool used by the C6 witness: two root commits dated 2017 and
2015, one more from 2016, most recent commit dated 2020. -/
def c6Oracle : Oracle := fun argv =>
  if argv = fullArgv (initState "repo" true) firstYearArgs then .ok "2017\n2015\n2016\n"
  else if argv = fullArgv (initState "repo" true) lastYearArgs then .ok "2020\n"
  else .error "fatal"

/-- Witness for C6: earliest root year 2015 and latest year 2020 yield
exactly the years 2015 through 2020. -/
theorem C6_witness :
    (∃ fy s2, initYears c6Oracle (initState "repo" true)
          = some (pyRange fy (pyInt "2020\n" + 1), s2)
        ∧ fy ∈ (pySplitlines "2017\n2015\n2016\n").map pyInt
        ∧ (∀ z ∈ (pySplitlines "2017\n2015\n2016\n").map pyInt, fy ≤ z)
        ∧ (fy ≤ pyInt "2020\n" →
            ∀ z, z ∈ pyRange fy (pyInt "2020\n" + 1) ↔ (fy ≤ z ∧ z ≤ pyInt "2020\n")))
      ∧ (initYears c6Oracle (initState "repo" true)).map Prod.fst
          = some [2015, 2016, 2017, 2018, 2019, 2020] :=
  ⟨C6_year_range c6Oracle (initState "repo" true) "2017\n2015\n2016\n" "2020\n"
      rfl rfl rfl rfl (by decide) (by decide), by decide⟩

/-! ## C5: decimal formatting lemmas -/

theorem digitChar_toNat (k : Nat) (h : k ≤ 9) : (digitChar k).toNat = 48 + k := by
  interval_cases k <;> rfl

theorem isDigitChar_digitChar (k : Nat) : isDigitChar (digitChar k) = true := by
  by_cases h : k ≤ 9
  · interval_cases k <;> rfl
  · simp only [digitChar]
    norm_num [show ¬ k = 0 by omega, show ¬ k = 1 by omega, show ¬ k = 2 by omega,
      show ¬ k = 3 by omega, show ¬ k = 4 by omega, show ¬ k = 5 by omega,
      show ¬ k = 6 by omega, show ¬ k = 7 by omega, show ¬ k = 8 by omega]
    decide

theorem digitsVal_append_singleton (l : List Char) (c : Char) :
    digitsVal (l ++ [c]) = 10 * digitsVal l + (c.toNat - 48) := by
  simp [digitsVal, List.foldl_append]

theorem natDigitsAux_spec (fuel : Nat) :
    ∀ n, n ≤ fuel →
      digitsVal (natDigitsAux fuel n) = n
        ∧ (∀ c ∈ natDigitsAux fuel n, isDigitChar c = true) := by
  induction fuel with
  | zero =>
    intro n hn
    have : n = 0 := by omega
    subst this
    exact ⟨rfl, by simp [natDigitsAux]⟩
  | succ f ih =>
    intro n hn
    by_cases h0 : n = 0
    · subst h0
      simp [natDigitsAux, digitsVal]
    · have hdiv : n / 10 ≤ f := by
        have hlt : n / 10 < n := Nat.div_lt_self (Nat.pos_of_ne_zero h0) (by omega)
        omega
      obtain ⟨hval, hdig⟩ := ih (n / 10) hdiv
      have hd9 : n % 10 ≤ 9 := by omega
      rw [show natDigitsAux (f + 1) n = natDigitsAux f (n / 10) ++ [digitChar (n % 10)]
        from by simp [natDigitsAux, h0]]
      constructor
      · rw [digitsVal_append_singleton, hval, digitChar_toNat _ hd9]
        omega
      · intro c hc
        rcases List.mem_append.mp hc with h | h
        · exact hdig c h
        · simp at h
          rw [h]
          exact isDigitChar_digitChar _

theorem natDigits_spec (n : Nat) :
    digitsVal (natDigits n) = n ∧ (∀ c ∈ natDigits n, isDigitChar c = true) := by
  by_cases h : n = 0
  · subst h
    exact ⟨rfl, by decide⟩
  · rw [show natDigits n = natDigitsAux n n from by simp [natDigits, h]]
    exact natDigitsAux_spec n n (Nat.le_refl n)

theorem digitsVal_replicate_zero (k : Nat) (l : List Char) :
    digitsVal (List.replicate k '0' ++ l) = digitsVal l := by
  induction k with
  | zero => rfl
  | succ j ih =>
    show digitsVal ('0' :: (List.replicate j '0' ++ l)) = digitsVal l
    rw [show digitsVal ('0' :: (List.replicate j '0' ++ l))
        = (List.replicate j '0' ++ l).foldl (fun n c => 10 * n + (c.toNat - 48)) 0
      from by simp [digitsVal]]
    exact ih

theorem padNat_spec (w n : Nat) :
    digitsVal (padNat w n).data = n ∧ (∀ c ∈ (padNat w n).data, isDigitChar c = true) := by
  obtain ⟨hval, hdig⟩ := natDigits_spec n
  constructor
  · show digitsVal (List.replicate (w - (natDigits n).length) '0' ++ natDigits n) = n
    rw [digitsVal_replicate_zero, hval]
  · intro c hc
    rcases List.mem_append.mp hc with h | h
    · rw [List.eq_of_mem_replicate h]
      decide
    · exact hdig c h

/-! ## C5: splitting lemmas -/

theorem splitOnChar_ne_nil (sep : Char) (l : List Char) : splitOnChar sep l ≠ [] := by
  cases l with
  | nil => simp [splitOnChar]
  | cons a as =>
    rw [splitOnChar]
    by_cases h : a = sep
    · simp [h]
    · rcases hr : splitOnChar sep as with _ | ⟨x, t⟩ <;> simp [h, hr]

theorem splitOnChar_not_mem (sep : Char) (l : List Char) (h : sep ∉ l) :
    splitOnChar sep l = [l] := by
  induction l with
  | nil => rfl
  | cons a as ih =>
    have ha : ¬ a = sep := fun he => h (by simp [he])
    rw [splitOnChar, ih (fun hm => h (by simp [hm]))]
    simp [ha]

theorem splitOnChar_append (sep : Char) (l r : List Char) (h : sep ∉ l) :
    splitOnChar sep (l ++ sep :: r) = l :: splitOnChar sep r := by
  induction l with
  | nil => simp [splitOnChar]
  | cons a as ih =>
    have ha : ¬ a = sep := fun he => h (by simp [he])
    rw [List.cons_append, splitOnChar, ih (fun hm => h (by simp [hm]))]
    simp [ha]

theorem not_mem_of_digits (sep : Char) (l : List Char)
    (hsep : isDigitChar sep = false) (h : ∀ c ∈ l, isDigitChar c = true) :
    sep ∉ l := fun hm => by
  rw [h sep hm] at hsep
  exact absurd hsep (by simp)

theorem pySplit_fmtDate (y m d : Nat) :
    pySplit '-' (fmtDate y m d) = [padNat 4 y, padNat 2 m, padNat 2 d] := by
  have hy := (padNat_spec 4 y).2
  have hm := (padNat_spec 2 m).2
  have hd := (padNat_spec 2 d).2
  have hdata : (fmtDate y m d).data
      = (padNat 4 y).data ++ '-' :: ((padNat 2 m).data ++ '-' :: (padNat 2 d).data) := by
    simp [fmtDate, String.data_append]
  rw [pySplit, hdata, splitOnChar_append _ _ _ (not_mem_of_digits _ _ (by decide) hy),
    splitOnChar_append _ _ _ (not_mem_of_digits _ _ (by decide) hm),
    splitOnChar_not_mem _ _ (not_mem_of_digits _ _ (by decide) hd)]
  rfl

theorem dateKeyOfStr_fmtDate (y m d : Nat) :
    dateKeyOfStr (fmtDate y m d) = dateKey y m d := by
  rw [dateKeyOfStr, pySplit_fmtDate]
  show dateKey (digitsVal (padNat 4 y).data) (digitsVal (padNat 2 m).data)
      (digitsVal (padNat 2 d).data) = dateKey y m d
  rw [(padNat_spec 4 y).1, (padNat_spec 2 m).1, (padNat_spec 2 d).1]

theorem pySplitlines_unlines (hs : List String) (h : ∀ x ∈ hs, '\n' ∉ x.data) :
    pySplitlines (unlines hs) = hs := by
  induction hs with
  | nil => rfl
  | cons x xs ih =>
    have hdata : (unlines (x :: xs)).data = x.data ++ '\n' :: (unlines xs).data := by
      show ((x ++ "\n") ++ unlines xs).data = _
      simp [String.data_append]
    have hsplit : splitOnChar '\n' (unlines (x :: xs)).data
        = x.data :: splitOnChar '\n' (unlines xs).data := by
      rw [hdata]
      exact splitOnChar_append '\n' x.data _ (h x (by simp))
    have hne := splitOnChar_ne_nil '\n' (unlines xs).data
    have ihx := ih (fun z hz => h z (by simp [hz]))
    rw [pySplitlines, hsplit]
    rw [pySplitlines] at ihx
    rcases hparts : splitOnChar '\n' (unlines xs).data with _ | ⟨p, ps⟩
    · exact absurd hparts hne
    · rw [hparts] at ihx
      rw [show (p :: ps).getLast? = ((p :: ps).getLast? ) from rfl] at ihx
      by_cases hlast : (p :: ps).getLast? = some []
      · rw [show (x.data :: p :: ps).getLast? = (p :: ps).getLast? from by
          rw [List.getLast?_cons_cons]]
        rw [if_pos hlast]
        rw [if_pos hlast] at ihx
        rw [show (x.data :: p :: ps).dropLast = x.data :: (p :: ps).dropLast from by
          simp [List.dropLast]]
        rw [List.map_cons, ihx]
      · rw [show (x.data :: p :: ps).getLast? = (p :: ps).getLast? from by
          rw [List.getLast?_cons_cons]]
        rw [if_neg hlast]
        rw [if_neg hlast] at ihx
        rw [List.map_cons, ihx]

theorem pyStrip_of_no_space (l : String) (h : ∀ c ∈ l.data, isPySpace c = false) :
    pyStrip l = l := by
  have h2 : l.data.dropWhile isPySpace = l.data := dropWhile_eq_self_of_all _ _ h
  have h3 : l.data.reverse.dropWhile isPySpace = l.data.reverse :=
    dropWhile_eq_self_of_all _ _ (fun c hc => h c (List.mem_reverse.mp hc))
  obtain ⟨d⟩ := l
  simp only [pyStrip] at *
  rw [h2, h3, List.reverse_reverse]

theorem map_pyStrip_eq_self (l : List String)
    (h : ∀ x ∈ l, ∀ c ∈ x.data, isPySpace c = false) : l.map pyStrip = l := by
  induction l with
  | nil => rfl
  | cons x xs ih =>
    rw [List.map_cons, pyStrip_of_no_space x (h x (by simp)),
      ih (fun z hz => h z (by simp [hz]))]

/-- Modelled from the spec: the commits of the primary branch whose
author timestamp lies in the half-open window
[midnight of `a`, midnight of `b`), in history order. -/
def windowCommits (repo : List (String × TS)) (a b : Nat × Nat × Nat) :
    List (String × TS) :=
  repo.filter (fun c => dateKey a.1 a.2.1 a.2.2 ≤ tsKey c.2
    && tsKey c.2 < dateKey b.1 b.2.1 b.2.2)

/-- The hashes of `windowCommits`. -/
def windowHashes (repo : List (String × TS)) (a b : Nat × Nat × Nat) : List String :=
  (windowCommits repo a b).map Prod.fst

/-- C5 as stated is false at the minimum representable date: `(1, 1, 1)`
is a valid date, but `commits(1, 1, 1)` computes
`date(1, 1, 1) - timedelta(days=1)`, which raises an uncaught
`OverflowError` before any query runs, instead of returning the hashes of
the day window. -/
theorem C5_counterexample :
    validDate 1 1 1 = true
      ∧ commits (specLogOracle [] (initState "repo" true).gitrepo)
          (initState "repo" true) 1 1 1 = Option.none := by
  constructor <;> rfl

/-- C5 (amended): against the spec-modelled git history traversal,
`commits(y, m, d)` on every valid date whose one-day subtraction does not
overflow (every valid date but the minimum `(1, 1, 1)`, where the call
raises instead) returns exactly the hashes of the commits authored in the
half-open window from midnight of the previous day `p` to midnight of
`(y, m, d)`, in the repository's reverse-chronological history order. -/
theorem C5_commits_day_window (repo : List (String × TS)) (s : GState)
    (y m d : Nat) (p : Nat × Nat × Nat) (hvalid : validDate y m d = true)
    (hp : prevDate (y, m, d) = some p)
    (hm : lookupAssoc s.cache (keyOf s (commitsArgs p y m d)) = Option.none)
    (hhash : ∀ c ∈ repo, ∀ ch ∈ c.1.data, isPySpace ch = false)
    (hord : repo.Pairwise (fun a b => tsKey b.2 ≤ tsKey a.2)) :
    ∃ st, commits (specLogOracle repo s.gitrepo) s y m d
        = some (windowHashes repo p (y, m, d), st, 1)
      ∧ (windowCommits repo p (y, m, d)).Pairwise
          (fun a b => tsKey b.2 ≤ tsKey a.2) := by
  have horacle : specLogOracle repo s.gitrepo (fullArgv s (commitsArgs p y m d))
      = .ok (unlines (windowHashes repo p (y, m, d))) := by
    show specLogOracle repo s.gitrepo
        ["git", "--git-dir", s.gitrepo, "log", "--after",
          fmtDate p.1 p.2.1 p.2.2, "--before", fmtDate y m d, "--pretty=%H"]
      = .ok (unlines (windowHashes repo p (y, m, d)))
    simp only [specLogOracle, if_true, dateKeyOfStr_fmtDate]
    rfl
  have hcc1 : (cached_command (specLogOracle repo s.gitrepo) s (commitsArgs p y m d) false).1
      = CmdOut.text (unlines (windowHashes repo p (y, m, d))) := by
    simp [cached_command, hm, horacle]
  have hinv := cached_command_miss_invoked (specLogOracle repo s.gitrepo) s
    (commitsArgs p y m d) false hm
  have hmemhash : ∀ x ∈ windowHashes repo p (y, m, d),
      ∀ ch ∈ x.data, isPySpace ch = false := by
    intro x hx
    obtain ⟨c, hc, rfl⟩ := List.mem_map.mp hx
    exact hhash c (List.mem_of_mem_filter hc)
  have hnonl : ∀ x ∈ windowHashes repo p (y, m, d), '\n' ∉ x.data := by
    intro x hx hmem
    exact absurd (hmemhash x hx '\n' hmem) (by decide)
  refine ⟨(cached_command (specLogOracle repo s.gitrepo) s (commitsArgs p y m d) false).2.1,
    ?_, List.Pairwise.filter _ hord⟩
  simp [commits, hvalid, hp, hcc1, hinv, pySplitlines_unlines _ hnonl,
    map_pyStrip_eq_self _ hmemhash]

/-- Primary-branch history used by the C5 witness: one commit at midnight
of March 15 2020, one a second before that midnight, one a second before
midnight of March 14. -/
def c5Repo : List (String × TS) :=
  [("aaa", (2020, 3, 15, 0, 0, 0)), ("bbb", (2020, 3, 14, 23, 59, 59)),
   ("ccc", (2020, 3, 13, 23, 59, 59))]

/-- Witness for the amended C5: `commits(2020, 3, 15)` selects exactly
the commit timestamped 2020-03-14T23:59:59, excluding those at
2020-03-15T00:00:00 and 2020-03-13T23:59:59. -/
theorem C5_witness :
    (∃ st, commits (specLogOracle c5Repo (initState "repo" true).gitrepo)
          (initState "repo" true) 2020 3 15
        = some (windowHashes c5Repo (2020, 3, 14) (2020, 3, 15), st, 1)
      ∧ (windowCommits c5Repo (2020, 3, 14) (2020, 3, 15)).Pairwise
          (fun a b => tsKey b.2 ≤ tsKey a.2))
      ∧ windowHashes c5Repo (2020, 3, 14) (2020, 3, 15) = ["bbb"] :=
  ⟨C5_commits_day_window c5Repo (initState "repo" true) 2020 3 15 (2020, 3, 14)
      (by decide) (by decide) rfl (by decide) (by decide),
   by decide⟩

end Gitoper
